import Mathlib

/-!
# SourceHive — Candidate Evaluation & Interview Orchestration Engine

A shallow embedding of the core engine of the SourceHive HR-screening
repository: the dictionary/synonym resolver, the profile canonicalizer,
the deterministic job-match scoring engine, and the token-gated interview
session state machine, together with the relational constraints declared
in `setup.sql`.

The repository ships the MySQL schema (`setup.sql`), the React frontend
and its API client; the FastAPI backend that implements the engine itself
is not part of the source tree.  Definitions for the backend behaviour are
therefore modelled from the specification (their doc comments say so);
definitions for the database constraints are translated from the
`CREATE TABLE` statements in `setup.sql`.
-/

namespace SourceHive

/-! ## Dictionary & Synonym Resolver -/

/-- ASCII lower-casing of a single character.  Models the case-insensitive
comparison used by the resolver (and by the schema's `utf8mb4_0900_ai_ci`
collation), restricted to ASCII letters. -/
def lowerChar (c : Char) : Char :=
  if 65 ≤ c.toNat ∧ c.toNat ≤ 90 then Char.ofNat (c.toNat + 32) else c

/-- ASCII lower-casing of a string. -/
def lowerStr (s : String) : String := ⟨s.data.map lowerChar⟩

/-- A row of the `synonyms` table of `setup.sql`:
`(token, expands_to)`; the `category` column does not affect resolution. -/
structure SynonymRule where
  token : String
  expands_to : String
deriving DecidableEq

/-- First synonym rule whose `token` equals the given (normalized) term. -/
def lookupSynonym (syns : List SynonymRule) (t : String) : Option String :=
  (syns.find? (fun r => r.token = t)).map (·.expands_to)

/-- Modelled from the spec (§4.1); the resolver implementation of the
FastAPI backend is not under the source tree.
`canonicalize(term, kind) -> string|null`: (1) exact case-insensitive
match against the dictionary of the kind; (2) single-hop synonym
expansion — if the term matches a `SynonymRule.token`, substitute
`expands_to` and retry dictionary lookup; (3) fail closed with `none`.
Dictionary entries are assumed stored in normalized (lower-case) form. -/
def canonicalize (dict : List String) (syns : List SynonymRule)
    (term : String) : Option String :=
  let t := lowerStr term
  if t ∈ dict then some t
  else
    match lookupSynonym syns t with
    | some e => if e ∈ dict then some e else none
    | none => none

theorem canonicalize_mem_dict (dict : List String) (syns : List SynonymRule)
    (term : String) (c : String) (h : canonicalize dict syns term = some c) :
    c ∈ dict := by
  unfold canonicalize at h
  by_cases hd : lowerStr term ∈ dict
  · simp [hd] at h; simpa [← h] using hd
  · simp only [hd, if_false] at h
    cases he : lookupSynonym syns (lowerStr term) with
    | none => simp [he] at h
    | some e =>
      simp only [he] at h
      by_cases hed : e ∈ dict
      · simp [hed] at h; simpa [← h] using hed
      · simp [hed] at h

/-- The result of `canonicalize` is either the normalized input term itself
or the single-hop expansion of the first synonym rule matching it. -/
theorem canonicalize_single_hop (dict : List String) (syns : List SynonymRule)
    (term : String) (c : String) (h : canonicalize dict syns term = some c) :
    c = lowerStr term ∨ lookupSynonym syns (lowerStr term) = some c := by
  unfold canonicalize at h
  by_cases hd : lowerStr term ∈ dict
  · simp [hd] at h; exact Or.inl h.symm
  · simp only [hd, if_false] at h
    cases he : lookupSynonym syns (lowerStr term) with
    | none => simp [he] at h
    | some e =>
      simp only [he] at h
      by_cases hed : e ∈ dict
      · simp [hed] at h; exact Or.inr (congrArg some h)
      · simp [hed] at h

/-! ## Job templates and the skill-match computation -/

/-- The `importance` column of `jd_keywords` in `setup.sql`:
`ENUM('critical','preferred')`. -/
inductive Importance where
  | critical
  | preferred
deriving DecidableEq

/-- One skill entry of a job template: a row of `jd_keywords`
(`keyword`, `importance`, `weight`) for a given role. -/
structure Keyword where
  keyword : String
  importance : Importance
  weight : ℚ
deriving DecidableEq

/-- Modelled from the spec (§3): a job template as consumed by the scoring
engine — the skills list with importance and weight, the role's experience
threshold, required résumé sections, and which bonuses are defined. -/
structure JobTemplate where
  skills : List Keyword
  requiredSections : List String
  expThresholdYears : ℚ
  certBonusDefined : Bool
  locBonusDefined : Bool
deriving DecidableEq

/-- Modelled from the spec (§4.3): a template keyword is matched when it —
or its single-hop synonym expansion — appears in the candidate's canonical
skill set.  Matching depends only on the keyword's name. -/
def isMatchedName (canon : List String) (syns : List SynonymRule)
    (name : String) : Bool :=
  decide (name ∈ canon) ||
    (match lookupSynonym syns name with
     | some e => decide (e ∈ canon)
     | none => false)

def isMatched (canon : List String) (syns : List SynonymRule)
    (k : Keyword) : Bool :=
  isMatchedName canon syns k.keyword

def matchedKeywords (t : JobTemplate) (canon : List String)
    (syns : List SynonymRule) : List Keyword :=
  t.skills.filter (isMatched canon syns)

def missingKeywords (t : JobTemplate) (canon : List String)
    (syns : List SynonymRule) : List Keyword :=
  t.skills.filter (fun k => !(isMatched canon syns k))

def matchedNames (t : JobTemplate) (canon : List String)
    (syns : List SynonymRule) : List String :=
  (matchedKeywords t canon syns).map (·.keyword)

def missingNames (t : JobTemplate) (canon : List String)
    (syns : List SynonymRule) : List String :=
  (missingKeywords t canon syns).map (·.keyword)

def totalWeight (t : JobTemplate) : ℚ :=
  (t.skills.map (·.weight)).sum

def matchedWeight (t : JobTemplate) (canon : List String)
    (syns : List SynonymRule) : ℚ :=
  ((matchedKeywords t canon syns).map (·.weight)).sum

def missingCriticalWeight (t : JobTemplate) (canon : List String)
    (syns : List SynonymRule) : ℚ :=
  (((missingKeywords t canon syns).filter
      (fun k => decide (k.importance = Importance.critical))).map (·.weight)).sum

/-- Modelled from the spec (§4.3): the maximum skill coverage achievable
given the critical keywords the candidate is missing. -/
def maxAchievable (t : JobTemplate) (canon : List String)
    (syns : List SynonymRule) : ℚ :=
  (totalWeight t - missingCriticalWeight t canon syns) / totalWeight t * 100

/-- Modelled from the spec (§4.3); the scoring backend is not under the
source tree.  Coverage score = Σ(weight of matched skills) / Σ(weight of
all skills) × 100, additionally capped against the maximum achievable
score when critical skills are missing.  A template with no (positive)
total weight scores 0. -/
def skillCoverage (t : JobTemplate) (canon : List String)
    (syns : List SynonymRule) : ℚ :=
  if totalWeight t ≤ 0 then 0
  else
    min (matchedWeight t canon syns / totalWeight t * 100)
        (maxAchievable t canon syns)

/-! ## Candidate profiles and the remaining score components -/

/-- Derived skill data (§3): the raw mentions are preserved for audit and
the canonical deduplicated set drives scoring. -/
structure SkillSet where
  raw : List String
  canonical : List String
deriving DecidableEq

/-- Outcome of comparing the candidate's education against the template's
education requirements (§4.3): exact match, related field, or absent. -/
inductive EducationMatch where
  | exactMatch
  | relatedField
  | absent
deriving DecidableEq

/-- Modelled from the spec (§3, §6): the raw structured fields delivered by
the external extraction collaborator and stored on the candidate row. -/
structure RawExtraction where
  rawSkills : List String
  sections : List String
  years : ℚ
  education : EducationMatch
  certMatch : Bool
  locMatch : Bool
deriving DecidableEq

/-- Modelled from the spec (§3): the canonical candidate profile produced
by the canonicalizer, with `SkillSet`s for hard and soft skills. -/
structure CandidateProfile where
  hard : SkillSet
  soft : SkillSet
  presentSections : List String
  experienceYears : ℚ
  education : EducationMatch
  certMatch : Bool
  locMatch : Bool
deriving DecidableEq

/-- Modelled from the spec (§4.2): build a `SkillSet` by running every raw
mention through the resolver, dropping unmapped terms, and deduplicating;
the raw list is preserved unchanged. -/
def buildSkillSet (dict : List String) (syns : List SynonymRule)
    (raws : List String) : SkillSet :=
  ⟨raws, (raws.filterMap (canonicalize dict syns)).dedup⟩

/-- Modelled from the spec (§4.2); the canonicalizer backend is not under
the source tree.  Each raw mention is resolved under both kinds; a mention
canonicalizing under `hard` is excluded from the soft set (prefer `hard`).
Pure transform over the input and the dictionary/synonym snapshot. -/
def processCandidate (hardDict softDict : List String)
    (syns : List SynonymRule) (r : RawExtraction) : CandidateProfile :=
  { hard := buildSkillSet hardDict syns r.rawSkills
    soft := ⟨r.rawSkills,
      ((r.rawSkills.filter (fun m => canonicalize hardDict syns m = none)).filterMap
        (canonicalize softDict syns)).dedup⟩
    presentSections := r.sections
    experienceYears := r.years
    education := r.education
    certMatch := r.certMatch
    locMatch := r.locMatch }

/-- The raw extraction as stored on the processed candidate row
(`skills_hard_raw` etc. in `user_data` of `setup.sql`). -/
def storedRaw (p : CandidateProfile) : RawExtraction :=
  ⟨p.hard.raw, p.presentSections, p.experienceYears, p.education,
    p.certMatch, p.locMatch⟩

/-- Modelled from the spec (§4.2) and the `reprocess` endpoint of the API
client: reprocessing re-runs the canonicalization transform over the same
stored raw extraction. -/
def reprocessCandidate (hardDict softDict : List String)
    (syns : List SynonymRule) (p : CandidateProfile) : CandidateProfile :=
  processCandidate hardDict softDict syns (storedRaw p)

/-- Modelled from the spec (§4.3): percentage of HR-required sections
present in the profile. -/
def structureScore (required present : List String) : ℚ :=
  if required.length = 0 then 100
  else ((required.filter (fun s => decide (s ∈ present))).length : ℚ)
        / (required.length : ℚ) * 100

/-- Modelled from the spec (§4.3): linear partial credit between zero and
the requirement, capped at 100. -/
def experienceAlignment (years req : ℚ) : ℚ :=
  if req ≤ 0 then 100 else min 100 (max 0 (years / req * 100))

/-- Modelled from the spec (§4.3): exact match = 100, related field =
partial credit, absent = 0. -/
def educationFit : EducationMatch → ℚ
  | .exactMatch => 100
  | .relatedField => 50
  | .absent => 0

/-- Modelled from the spec (§4.3): certification and location match each
add a bounded additive bonus, applied only if defined in the template. -/
def bonusPoints (p : CandidateProfile) (t : JobTemplate) : ℚ :=
  (if t.certBonusDefined && p.certMatch then 5 else 0) +
    (if t.locBonusDefined && p.locMatch then 5 else 0)

def clampScore (x : ℚ) : ℚ := max 0 (min 100 x)

/-- The `ScoreResult` record of §3. -/
structure ScoreResult where
  structure_score : ℚ
  skill_match_score : ℚ
  experience_alignment : ℚ
  education_fit : ℚ
  jd_match_score : ℚ
  matched_keywords : List String
  missing_keywords : List String
deriving DecidableEq

/-- Modelled from the spec (§4.3); the scoring backend is not under the
source tree.  `score(profile, template)` is a deterministic pure function;
the final score is a fixed weighted combination (the spec fixes the shape
but not the numeric weights; 1/2, 3/10, 1/5 are used here) of skill
coverage, experience alignment and education fit, plus bonuses, clamped to
[0, 100].  The synonym snapshot is passed explicitly. -/
def score (syns : List SynonymRule) (p : CandidateProfile)
    (t : JobTemplate) : ScoreResult :=
  let cov := skillCoverage t p.hard.canonical syns
  let ea := experienceAlignment p.experienceYears t.expThresholdYears
  let ef := educationFit p.education
  { structure_score := structureScore t.requiredSections p.presentSections
    skill_match_score := cov
    experience_alignment := ea
    education_fit := ef
    jd_match_score :=
      clampScore (cov / 2 + 3 * ea / 10 + ef / 5 + bonusPoints p t)
    matched_keywords := matchedNames t p.hard.canonical syns
    missing_keywords := missingNames t p.hard.canonical syns }

/-! ## Interview session state machine -/

/-- The `interview_status` column of `interview_sessions` in `setup.sql`:
`ENUM('invited','in_progress','completed','expired','canceled')`. -/
inductive IStatus where
  | invited
  | inProgress
  | completed
  | expired
  | canceled
deriving DecidableEq

/-- The error taxonomy of §7 relevant to the session state machine. -/
inductive ApiError where
  | validationError
  | notFoundError
  | expiredError
  | conflictError
deriving DecidableEq

/-- One answered turn: the candidate's free-text answer together with the
per-question score in [0,1] returned by the external evaluation
collaborator. -/
structure Turn where
  answer : String
  evalScore : ℚ
deriving DecidableEq

/-- Modelled from the spec (§3, §4.4): one interview session as acted on
by the state machine.  Timestamps are seconds as natural numbers. -/
structure InterviewSession where
  status : IStatus
  expiresAt : Nat
  startedAt : Option Nat
  completedAt : Option Nat
  questionCount : Nat
  maxQuestions : Nat
  turns : List Turn
  sessionScore : ℚ
deriving DecidableEq

/-- Modelled from the spec (§4.4 Invite): a freshly invited session with
an expiry `expiresHours` hours from now (default 72, HR-configurable). -/
def mkInvitedSession (now expiresHours maxQ : Nat) : InterviewSession :=
  { status := .invited
    expiresAt := now + expiresHours * 3600
    startedAt := none
    completedAt := none
    questionCount := 0
    maxQuestions := maxQ
    turns := []
    sessionScore := 0 }

/-- Modelled from the spec (§4.4 Expiry): every resolve-by-token access
first short-circuits an active session past `expires_at` to `expired`;
terminal states are never left. -/
def resolveSession (now : Nat) (s : InterviewSession) : InterviewSession :=
  if s.expiresAt < now ∧ (s.status = .invited ∨ s.status = .inProgress)
  then { s with status := .expired }
  else s

/-- Modelled from the spec (§4.4 Resolve-by-token): `get` on the candidate
portal — expiry first, then the session view. -/
def getSessionByToken (now : Nat) (s : InterviewSession) :
    InterviewSession × Except ApiError InterviewSession :=
  let s1 := resolveSession now s
  if s1.status = .expired then (s1, .error .expiredError) else (s1, .ok s1)

/-- Modelled from the spec (§4.4 Start): valid only from `invited`;
idempotent on `in_progress`.  The `question` argument stands for the
output of the external question-generation collaborator; an `.error`
result means the generator is never invoked (no question is generated). -/
def startInterview (now : Nat) (question : String) (s : InterviewSession) :
    InterviewSession × Except ApiError String :=
  let s1 := resolveSession now s
  match s1.status with
  | .expired => (s1, .error .expiredError)
  | .invited =>
      ({ s1 with status := .inProgress, startedAt := some now }, .ok question)
  | .inProgress => (s1, .ok question)
  | .completed => (s1, .error .conflictError)
  | .canceled => (s1, .error .conflictError)

/-- Mean of the per-question scores of the turns, scaled to 0–100. -/
def aggregateScore (turns : List Turn) : ℚ :=
  100 * ((turns.map (·.evalScore)).sum / (turns.length : ℚ))

/-- Modelled from the spec (§4.4 Message); the backend is not under the
source tree.  Valid only while `in_progress` with
`question_count < max_questions`: append the turn (with the external
evaluation's score), increment `question_count`; on reaching
`max_questions` transition to `completed`, stamp `completed_at` and set
the aggregate score; otherwise remain `in_progress` awaiting the next
question.  A message against a completed session is a `ConflictError`
and appends nothing. -/
def messageTurn (now : Nat) (answer : String) (evalScore : ℚ)
    (s : InterviewSession) : InterviewSession × Except ApiError String :=
  let s1 := resolveSession now s
  match s1.status with
  | .expired => (s1, .error .expiredError)
  | .invited => (s1, .error .conflictError)
  | .completed => (s1, .error .conflictError)
  | .canceled => (s1, .error .conflictError)
  | .inProgress =>
      if s1.maxQuestions ≤ s1.questionCount then (s1, .error .conflictError)
      else
        let turns1 := s1.turns ++ [⟨answer, evalScore⟩]
        let qc1 := s1.questionCount + 1
        if qc1 = s1.maxQuestions then
          ({ s1 with
              turns := turns1
              questionCount := qc1
              status := .completed
              completedAt := some now
              sessionScore := aggregateScore turns1 }, .ok "completed")
        else
          ({ s1 with turns := turns1, questionCount := qc1 }, .ok "next")

/-! ## Database table states (`setup.sql`) -/

/-- A stored row of `interview_sessions` (`setup.sql`), restricted to the
columns the claims are about.  `token_hash CHAR(64)` is nullable, so it is
an `Option`. -/
structure SessionRow where
  sessionId : String
  userId : Nat
  interviewRole : String
  status : IStatus
  tokenHash : Option String
  expiresAt : Nat
deriving DecidableEq

/-- The `UNIQUE KEY uk_is_token_hash (token_hash)` constraint of
`interview_sessions` under MySQL semantics: a unique index on a nullable
column makes distinct rows disagree on every non-NULL value, while any
number of rows may hold NULL. -/
def tokenHashUnique (rows : List SessionRow) : Prop :=
  rows.Pairwise (fun a b => ∀ h : String,
    a.tokenHash = some h → b.tokenHash ≠ some h)

instance (rows : List SessionRow) : Decidable (tokenHashUnique rows) := by
  unfold tokenHashUnique
  exact List.instDecidablePairwise rows

/-- Resolve-by-token at the storage level: the rows whose stored hash
equals the hash of the presented token. -/
def rowsMatchingHash (rows : List SessionRow) (h : String) :
    List SessionRow :=
  rows.filter (fun r => decide (r.tokenHash = some h))

/-- A session row in an active state (`invited` or `in_progress`). -/
def rowActive (r : SessionRow) : Bool :=
  decide (r.status = IStatus.invited) || decide (r.status = IStatus.inProgress)

/-- At most one active session per `(candidate, role)` pair (§4.4). -/
def OneActivePerPair (rows : List SessionRow) : Prop :=
  rows.Pairwise (fun a b =>
    ¬(a.userId = b.userId ∧ a.interviewRole = b.interviewRole ∧
      rowActive a = true ∧ rowActive b = true))

instance (rows : List SessionRow) : Decidable (OneActivePerPair rows) := by
  unfold OneActivePerPair
  exact List.instDecidablePairwise rows

/-- Whether the store already holds an active session for the pair. -/
def hasActiveSession (rows : List SessionRow) (uid : Nat) (role : String) :
    Bool :=
  rows.any (fun r =>
    decide (r.userId = uid) && decide (r.interviewRole = role) && rowActive r)

/-- Modelled from the spec (§4.4 Invite, §5); the invite-issuance backend
is not under the source tree (and `interview_sessions` in `setup.sql`
carries no unique key on the pair).  Issuance is a single atomic
conditional step on the store: a pair with an active session is rejected
as a conflict, otherwise the new `invited` row is inserted. -/
def inviteCandidate (rows : List SessionRow) (uid : Nat) (role : String)
    (sid tokenHash : String) (expiresAt : Nat) :
    Except ApiError (List SessionRow) :=
  if hasActiveSession rows uid role then .error .conflictError
  else .ok (⟨sid, uid, role, .invited, some tokenHash, expiresAt⟩ :: rows)

/-- A stored row of `jd_keywords` (`setup.sql`). -/
structure JdKeywordRow where
  roleId : Nat
  keyword : String
  importance : Importance
  weight : ℚ
deriving DecidableEq

/-- The `UNIQUE KEY uk_role_keyword (role_id, keyword)` constraint of
`jd_keywords`: no two rows share both role and keyword (both columns are
NOT NULL). -/
def roleKeywordUnique (rows : List JdKeywordRow) : Prop :=
  rows.Pairwise (fun a b => ¬(a.roleId = b.roleId ∧ a.keyword = b.keyword))

instance (rows : List JdKeywordRow) : Decidable (roleKeywordUnique rows) := by
  unfold roleKeywordUnique
  exact List.instDecidablePairwise rows

/-- The skills list of the template for one role, read off the
`jd_keywords` table. -/
def keywordsOfRole (rows : List JdKeywordRow) (rid : Nat) : List Keyword :=
  (rows.filter (fun r => decide (r.roleId = rid))).map
    (fun r => ⟨r.keyword, r.importance, r.weight⟩)

/-! ## Helper lemmas -/

theorem clampScore_nonneg (x : ℚ) : 0 ≤ clampScore x :=
  le_max_left 0 _

theorem clampScore_le_100 (x : ℚ) : clampScore x ≤ 100 :=
  max_le (by norm_num) (min_le_left _ _)

theorem mem_matchedNames {t : JobTemplate} {canon : List String}
    {syns : List SynonymRule} {kw : String} :
    kw ∈ matchedNames t canon syns ↔
      (∃ k ∈ t.skills, k.keyword = kw) ∧ isMatchedName canon syns kw = true := by
  unfold matchedNames matchedKeywords
  simp only [List.mem_map, List.mem_filter]
  constructor
  · rintro ⟨k, ⟨hk, hm⟩, rfl⟩
    exact ⟨⟨k, hk, rfl⟩, hm⟩
  · rintro ⟨⟨k, hk, rfl⟩, hm⟩
    exact ⟨k, ⟨hk, hm⟩, rfl⟩

theorem mem_missingNames {t : JobTemplate} {canon : List String}
    {syns : List SynonymRule} {kw : String} :
    kw ∈ missingNames t canon syns ↔
      (∃ k ∈ t.skills, k.keyword = kw) ∧ isMatchedName canon syns kw = false := by
  unfold missingNames missingKeywords
  simp only [List.mem_map, List.mem_filter, Bool.not_eq_true', isMatched]
  constructor
  · rintro ⟨k, ⟨hk, hm⟩, rfl⟩
    exact ⟨⟨k, hk, rfl⟩, hm⟩
  · rintro ⟨⟨k, hk, rfl⟩, hm⟩
    exact ⟨k, ⟨hk, hm⟩, rfl⟩

/-! ## C1 -/

/-- C1: for every synonym snapshot, candidate profile and job template,
the score operation returns a `ScoreResult` whose `jd_match_score` lies in
[0,100], whose `matched_keywords` and `missing_keywords` are disjoint, and
whose union of `matched_keywords` and `missing_keywords` is exactly the
set of keywords of the template. -/
theorem score_range_and_partition (syns : List SynonymRule)
    (p : CandidateProfile) (t : JobTemplate) :
    0 ≤ (score syns p t).jd_match_score ∧
    (score syns p t).jd_match_score ≤ 100 ∧
    (∀ kw, kw ∈ (score syns p t).matched_keywords →
      kw ∉ (score syns p t).missing_keywords) ∧
    (∀ kw, (kw ∈ (score syns p t).matched_keywords ∨
            kw ∈ (score syns p t).missing_keywords) ↔
      kw ∈ t.skills.map (·.keyword)) := by
  refine ⟨clampScore_nonneg _, clampScore_le_100 _, ?_, ?_⟩
  · intro kw hmat hmis
    have h1 := (mem_matchedNames.1 hmat).2
    have h2 := (mem_missingNames.1 hmis).2
    rw [h1] at h2
    exact Bool.true_eq_false.mp h2
  · intro kw
    constructor
    · rintro (hmat | hmis)
      · obtain ⟨⟨k, hk, rfl⟩, _⟩ := mem_matchedNames.1 hmat
        exact List.mem_map.2 ⟨k, hk, rfl⟩
      · obtain ⟨⟨k, hk, rfl⟩, _⟩ := mem_missingNames.1 hmis
        exact List.mem_map.2 ⟨k, hk, rfl⟩
    · intro hmem
      obtain ⟨k, hk, rfl⟩ := List.mem_map.1 hmem
      by_cases hm : isMatchedName p.hard.canonical syns k.keyword = true
      · exact Or.inl (mem_matchedNames.2 ⟨⟨k, hk, rfl⟩, hm⟩)
      · exact Or.inr (mem_missingNames.2
          ⟨⟨k, hk, rfl⟩, Bool.not_eq_true _ ▸ hm⟩)

/-! ## C2 -/

/-- The scenario template of §8: critical "python" (weight 3) and
preferred "docker" (weight 1). -/
def demoTemplate : JobTemplate :=
  { skills := [⟨"python", .critical, 3⟩, ⟨"docker", .preferred, 1⟩]
    requiredSections := []
    expThresholdYears := 0
    certBonusDefined := false
    locBonusDefined := false }

/-- The scenario candidate of §8: canonical hard skill set exactly
{"python"}. -/
def demoProfilePython : CandidateProfile :=
  { hard := ⟨["python"], ["python"]⟩
    soft := ⟨[], []⟩
    presentSections := []
    experienceYears := 0
    education := .absent
    certMatch := false
    locMatch := false }

/-- C2: the skill coverage is the weighted fraction of matched template
keywords × 100, capped against the maximum achievable score when critical
skills are missing — so a candidate missing a positive-weight critical
skill can never reach full coverage; and on the §8 scenario (critical
"python" w=3, preferred "docker" w=1, canonical skills {"python"}) the
coverage is 75 and the missing keywords are exactly ["docker"]. -/
theorem coverage_formula_and_scenario :
    (score [] demoProfilePython demoTemplate).skill_match_score = 75 ∧
    (score [] demoProfilePython demoTemplate).missing_keywords = ["docker"] ∧
    (∀ (t : JobTemplate) (canon : List String) (syns : List SynonymRule),
      (∀ k ∈ t.skills, 0 ≤ k.weight) →
      (∃ k ∈ t.skills, isMatched canon syns k = false ∧
        k.importance = Importance.critical ∧ 0 < k.weight) →
      skillCoverage t canon syns < 100) := by
  refine ⟨?_, ?_, ?_⟩
  · simp [score, skillCoverage, matchedWeight, totalWeight, maxAchievable,
      missingCriticalWeight, matchedKeywords, missingKeywords, isMatched,
      isMatchedName, lookupSynonym, demoTemplate, demoProfilePython,
      List.filter]
    norm_num
  · simp [score, missingNames, missingKeywords, isMatched, isMatchedName,
      lookupSynonym, demoTemplate, demoProfilePython, List.filter]
  intro t canon syns hw ⟨k, hk, hkm, hkc, hkw⟩
  have htw : 0 < totalWeight t := by
    have hmem : k.weight ∈ t.skills.map (·.weight) := List.mem_map.2 ⟨k, hk, rfl⟩
    have hle : k.weight ≤ totalWeight t :=
      List.single_le_sum (fun x hx => by
        obtain ⟨y, hy, rfl⟩ := List.mem_map.1 hx
        exact hw y hy) _ hmem
    linarith
  have hmcw : 0 < missingCriticalWeight t canon syns := by
    have hkmem : k ∈ (missingKeywords t canon syns).filter
        (fun k => decide (k.importance = Importance.critical)) := by
      rw [List.mem_filter]
      refine ⟨?_, by simp [hkc]⟩
      unfold missingKeywords
      rw [List.mem_filter]
      exact ⟨hk, by simp [hkm]⟩
    have hmem : k.weight ∈ (((missingKeywords t canon syns).filter
        (fun k => decide (k.importance = Importance.critical))).map (·.weight)) :=
      List.mem_map.2 ⟨k, hkmem, rfl⟩
    have hle : k.weight ≤ missingCriticalWeight t canon syns := by
      refine List.single_le_sum (fun x hx => ?_) _ hmem
      obtain ⟨y, hy, rfl⟩ := List.mem_map.1 hx
      have hy' : y ∈ t.skills := by
        have := (List.mem_filter.1 hy).1
        exact (List.mem_filter.1 this).1
      exact hw y hy'
    linarith
  have hlt : maxAchievable t canon syns < 100 := by
    unfold maxAchievable
    rw [div_mul_eq_mul_div, div_lt_iff₀ htw]
    linarith
  unfold skillCoverage
  rw [if_neg (not_le.2 htw)]
  exact lt_of_le_of_lt (min_le_right _ _) hlt

/-- Witness for C2's general cap conjunct: on the scenario template a
candidate with canonical skills {"docker"} is missing the critical
"python" (weight 3 > 0), so the coverage stays strictly below 100. -/
theorem coverage_cap_witness :
    skillCoverage demoTemplate ["docker"] [] < 100 :=
  coverage_formula_and_scenario.2.2 demoTemplate ["docker"] []
    (by intro k hk; fin_cases hk <;> norm_num)
    ⟨⟨"python", .critical, 3⟩, by norm_num [demoTemplate], by decide, rfl,
      by norm_num⟩

/-! ## C3 -/

/-- C3: a session past `expires_at` resolves to `expired` before any other
logic runs, for each token-gated access (`get`, `start`, `message`),
whether it was previously `invited` or `in_progress`; the access reports
`ExpiredError`, no question is generated (`start`/`message` return no
question), and no turn is appended. -/
theorem expiry_short_circuits (now : Nat) (q ans : String) (sc : ℚ)
    (s : InterviewSession)
    (hexp : s.expiresAt < now)
    (hact : s.status = IStatus.invited ∨ s.status = IStatus.inProgress) :
    (getSessionByToken now s).1.status = IStatus.expired ∧
    (getSessionByToken now s).2 = .error .expiredError ∧
    (startInterview now q s).1.status = IStatus.expired ∧
    (startInterview now q s).2 = .error .expiredError ∧
    (messageTurn now ans sc s).1.status = IStatus.expired ∧
    (messageTurn now ans sc s).2 = .error .expiredError ∧
    (messageTurn now ans sc s).1.turns = s.turns := by
  have hres : resolveSession now s = { s with status := .expired } :=
    if_pos ⟨hexp, hact⟩
  refine ⟨?_, ?_, ?_, ?_, ?_, ?_, ?_⟩ <;>
    simp [getSessionByToken, startInterview, messageTurn, hres]

/-- Witness for C3 (§8 scenario): an invite issued at time 0 with
`expires_hours = 72`, started 73 hours later, resolves to `expired` and
no question is generated. -/
theorem expiry_witness :
    (startInterview (73 * 3600) "q" (mkInvitedSession 0 72 6)).1.status
        = IStatus.expired ∧
    (startInterview (73 * 3600) "q" (mkInvitedSession 0 72 6)).2
        = .error .expiredError :=
  have h := expiry_short_circuits (73 * 3600) "q" "a" 0
    (mkInvitedSession 0 72 6) (by decide) (Or.inl rfl)
  ⟨h.2.2.1, h.2.2.2.1⟩

/-! ## C4 -/

/-- C4: a message turn that raises `question_count` to `max_questions`
transitions the session to `completed`, stamps `completed_at`, appends
the turn, and sets the session score to the mean of the per-question
scores scaled to 0–100 (`aggregateScore`); every further message against
the completed session is rejected with a `ConflictError` and appends
nothing. -/
theorem message_completes_at_max (now : Nat) (ans : String) (sc : ℚ)
    (s : InterviewSession)
    (hst : s.status = IStatus.inProgress)
    (hexp : ¬ s.expiresAt < now)
    (hqc : s.questionCount + 1 = s.maxQuestions) :
    (messageTurn now ans sc s).1.status = IStatus.completed ∧
    (messageTurn now ans sc s).1.completedAt = some now ∧
    (messageTurn now ans sc s).1.turns = s.turns ++ [⟨ans, sc⟩] ∧
    (messageTurn now ans sc s).1.sessionScore
        = aggregateScore (s.turns ++ [⟨ans, sc⟩]) ∧
    (∀ now2 a2 sc2,
      (messageTurn now2 a2 sc2 (messageTurn now ans sc s).1).2
          = .error .conflictError ∧
      (messageTurn now2 a2 sc2 (messageTurn now ans sc s).1).1.turns
          = (messageTurn now ans sc s).1.turns) := by
  have hres : resolveSession now s = s := if_neg (fun h => hexp h.1)
  have h1 : ¬ s.maxQuestions ≤ s.questionCount := by omega
  refine ⟨?_, ?_, ?_, ?_, fun now2 a2 sc2 => ⟨?_, ?_⟩⟩
  · simp [messageTurn, hres, hst, h1, hqc]
  · simp [messageTurn, hres, hst, h1, hqc]
  · simp [messageTurn, hres, hst, h1, hqc]
  · simp [messageTurn, hres, hst, h1, hqc]
  · simp [messageTurn, resolveSession, hexp, hst, h1, hqc]
  · simp [messageTurn, resolveSession, hexp, hst, h1, hqc]

/-- A 6-question session that has answered 5 questions, used to witness
C4 (`max_questions = 6` scenario of §8). -/
def demoSessionFive : InterviewSession :=
  { status := .inProgress
    expiresAt := 1000
    startedAt := some 10
    completedAt := none
    questionCount := 5
    maxQuestions := 6
    turns := [⟨"a1", 1⟩, ⟨"a2", 0⟩, ⟨"a3", 1⟩, ⟨"a4", 1/2⟩, ⟨"a5", 1⟩]
    sessionScore := 0 }

/-- Witness for C4: answering the 6th question at time 500 completes the
session with score `aggregateScore` of the six turns (here 75), and a 7th
message at time 700 is rejected with `ConflictError` without touching the
turns. -/
theorem message_completes_witness :
    (messageTurn 500 "a6" 1 demoSessionFive).1.status = IStatus.completed ∧
    (messageTurn 500 "a6" 1 demoSessionFive).1.completedAt = some 500 ∧
    (messageTurn 500 "a6" 1 demoSessionFive).1.sessionScore = 75 ∧
    (messageTurn 700 "a7" 1 (messageTurn 500 "a6" 1 demoSessionFive).1).2
        = .error .conflictError ∧
    (messageTurn 700 "a7" 1 (messageTurn 500 "a6" 1 demoSessionFive).1).1.turns
        = (messageTurn 500 "a6" 1 demoSessionFive).1.turns :=
  have h := message_completes_at_max 500 "a6" 1 demoSessionFive rfl
    (by decide) rfl
  ⟨h.1, h.2.1,
    h.2.2.2.1.trans (by norm_num [aggregateScore, demoSessionFive]),
    (h.2.2.2.2 700 "a7" 1).1, (h.2.2.2.2 700 "a7" 1).2⟩

/-! ## C5 -/

/-- C5: invite issuance is a single atomic conditional step on the
session store: a `(candidate, role)` pair that already has an active
(`invited`/`in_progress`) session is rejected with a `ConflictError` and
no row is created, and a successful issuance preserves the
at-most-one-active-session-per-pair invariant. -/
theorem invite_one_active_per_pair (rows : List SessionRow) (uid : Nat)
    (role sid th : String) (expAt : Nat) :
    (hasActiveSession rows uid role = true →
      inviteCandidate rows uid role sid th expAt = .error .conflictError) ∧
    (∀ rows', inviteCandidate rows uid role sid th expAt = .ok rows' →
      OneActivePerPair rows → OneActivePerPair rows') := by
  constructor
  · intro h
    simp [inviteCandidate, h]
  · intro rows' hok hinv
    by_cases h : hasActiveSession rows uid role = true
    · simp [inviteCandidate, h] at hok
    · have hfalse : hasActiveSession rows uid role = false :=
        Bool.not_eq_true _ ▸ h
      simp [inviteCandidate, hfalse] at hok
      subst hok
      simp [hasActiveSession] at hfalse
      refine List.Pairwise.cons ?_ hinv
      intro b hb hcontra
      obtain ⟨hu, hr, _, hbact⟩ := hcontra
      have hbf : rowActive b = false := hfalse b hb hu.symm hr.symm
      rw [hbf] at hbact
      exact Bool.false_ne_true hbact

/-- A store with one active session for candidate 1 on role "AI Engineer". -/
def demoStore : List SessionRow :=
  [⟨"s1", 1, "AI Engineer", .invited, some "h1", 100⟩]

/-- Witness for C5: a second invite for the same (candidate, role) pair is
a conflict, and an invite for a different candidate succeeds while
keeping the one-active-session invariant. -/
theorem invite_one_active_witness :
    inviteCandidate demoStore 1 "AI Engineer" "s2" "h2" 200
        = .error .conflictError ∧
    OneActivePerPair
      (⟨"s2", 2, "AI Engineer", .invited, some "h2", 200⟩ :: demoStore) :=
  ⟨(invite_one_active_per_pair demoStore 1 "AI Engineer" "s2" "h2" 200).1
      (by decide),
    (invite_one_active_per_pair demoStore 2 "AI Engineer" "s2" "h2" 200).2
      (⟨"s2", 2, "AI Engineer", .invited, some "h2", 200⟩ :: demoStore)
      rfl (by decide)⟩

/-! ## C6 -/

/-- C6: synonym expansion in `canonicalize` is single-hop.  If a rule maps
the (normalized) term A to B and A is not itself in the dictionary, A
canonicalizes to B whenever B is in the dictionary; and whatever the rule
set, any successful canonicalization of A returns either A itself or the
single-hop expansion of the first rule matching A — never the target of a
transitive chain. -/
theorem synonym_single_hop (dict : List String) (syns : List SynonymRule)
    (A B : String)
    (hA : lowerStr A ∉ dict)
    (hfind : lookupSynonym syns (lowerStr A) = some B)
    (hB : B ∈ dict) :
    canonicalize dict syns A = some B ∧
    (∀ x, canonicalize dict syns A = some x →
      x = lowerStr A ∨ lookupSynonym syns (lowerStr A) = some x) := by
  constructor
  · unfold canonicalize
    simp [hA, hfind, hB]
  · intro x hx
    exact canonicalize_single_hop dict syns A x hx

/-- Witness for C6: with the two-step chain a→b→c and dictionary {b, c},
the term "A" canonicalizes to "b" (one hop), not to "c". -/
theorem synonym_single_hop_witness :
    canonicalize ["b", "c"] [⟨"a", "b"⟩, ⟨"b", "c"⟩] "A" = some "b" ∧
    canonicalize ["b", "c"] [⟨"a", "b"⟩, ⟨"b", "c"⟩] "A" ≠ some "c" :=
  ⟨(synonym_single_hop ["b", "c"] [⟨"a", "b"⟩, ⟨"b", "c"⟩] "A" "b"
      (by decide) (by decide) (by decide)).1,
    by decide⟩

/-! ## C7 -/

theorem filterMap_eq_self_of_some {α : Type} (f : α → Option α) :
    ∀ l : List α, (∀ x ∈ l, f x = some x) → l.filterMap f = l
  | [], _ => rfl
  | a :: l, h => by
    rw [List.filterMap_cons, h a (.head l),
      filterMap_eq_self_of_some f l (fun x hx => h x (.tail _ hx))]

/-- A term already canonical (in the dictionary, in normalized form)
canonicalizes to itself. -/
theorem canonicalize_fixed (dict : List String) (syns : List SynonymRule)
    (x : String) (hx : x ∈ dict) (hfix : lowerStr x = x) :
    canonicalize dict syns x = some x := by
  simp only [canonicalize, hfix]
  simp [hx]

/-- C7: canonicalization and scoring are deterministic and reprocessing is
idempotent.  Reprocessing a processed candidate from its stored raw
extraction returns the identical profile, and scoring it returns the
identical `ScoreResult`; moreover, when the dictionary holds normalized
terms, re-canonicalizing an already canonical skill set yields the same
canonical `SkillSet`. -/
theorem reprocess_idempotent (hd sd : List String) (syns : List SynonymRule)
    (r : RawExtraction) (t : JobTemplate) :
    reprocessCandidate hd sd syns (processCandidate hd sd syns r)
        = processCandidate hd sd syns r ∧
    score syns (reprocessCandidate hd sd syns (processCandidate hd sd syns r)) t
        = score syns (processCandidate hd sd syns r) t ∧
    ((∀ d ∈ hd, lowerStr d = d) →
      (buildSkillSet hd syns
          (buildSkillSet hd syns r.rawSkills).canonical).canonical
        = (buildSkillSet hd syns r.rawSkills).canonical) := by
  have h1 : reprocessCandidate hd sd syns (processCandidate hd sd syns r)
      = processCandidate hd sd syns r := rfl
  refine ⟨h1, by rw [h1], ?_⟩
  intro hnorm
  have hmem : ∀ x ∈ (buildSkillSet hd syns r.rawSkills).canonical,
      canonicalize hd syns x = some x := by
    intro x hx
    simp only [buildSkillSet, List.mem_dedup, List.mem_filterMap] at hx
    obtain ⟨y, _, hy⟩ := hx
    have hxd : x ∈ hd := canonicalize_mem_dict hd syns y x hy
    exact canonicalize_fixed hd syns x hxd (hnorm x hxd)
  show ((buildSkillSet hd syns r.rawSkills).canonical.filterMap
      (canonicalize hd syns)).dedup = (buildSkillSet hd syns r.rawSkills).canonical
  rw [filterMap_eq_self_of_some _ _ hmem]
  exact List.dedup_eq_self.2 (List.nodup_dedup _)

/-- Witness for C7: a concrete dictionary {"python"} and raw skill list;
the third conjunct's normalized-dictionary hypothesis holds and
re-canonicalizing the canonical set is the identity. -/
theorem reprocess_idempotent_witness :
    (buildSkillSet ["python"] []
        (buildSkillSet ["python"] [] ["PyThon", "foo", "python"]).canonical).canonical
      = (buildSkillSet ["python"] [] ["PyThon", "foo", "python"]).canonical :=
  (reprocess_idempotent ["python"] [] []
      ⟨["PyThon", "foo", "python"], [], 0, .absent, false, false⟩
      demoTemplate).2.2 (by decide)

/-! ## C8 -/

theorem sum_filter_map_mono {α : Type} (w : α → ℚ) (p q : α → Bool) :
    ∀ l : List α, (∀ a ∈ l, p a = true → q a = true) →
      (∀ a ∈ l, 0 ≤ w a) →
      ((l.filter p).map w).sum ≤ ((l.filter q).map w).sum
  | [], _, _ => le_refl _
  | a :: l, hpq, hw => by
    have ih := sum_filter_map_mono w p q l
      (fun x hx => hpq x (.tail _ hx)) (fun x hx => hw x (.tail _ hx))
    by_cases hp : p a = true
    · have hq := hpq a (.head l) hp
      simp only [List.filter_cons, hp, hq, if_true, List.map_cons, List.sum_cons]
      linarith
    · by_cases hq : q a = true
      · simp only [List.filter_cons, hp, hq, if_true, if_false,
          List.map_cons, List.sum_cons, Bool.false_eq_true]
        have := hw a (.head l)
        linarith
      · simp only [List.filter_cons, hp, hq, if_false, Bool.false_eq_true]
        exact ih

theorem isMatchedName_mono (canon : List String) (kw : String)
    (syns : List SynonymRule) (name : String)
    (h : isMatchedName canon syns name = true) :
    isMatchedName (kw :: canon) syns name = true := by
  unfold isMatchedName at h ⊢
  cases he : lookupSynonym syns name with
  | none =>
    rw [he] at h
    simp only [Bool.or_false, decide_eq_true_eq] at h ⊢
    exact List.mem_cons_of_mem _ h
  | some e =>
    rw [he] at h
    simp only [Bool.or_eq_true, decide_eq_true_eq] at h ⊢
    rcases h with h1 | h2
    · exact Or.inl (List.mem_cons_of_mem _ h1)
    · exact Or.inr (List.mem_cons_of_mem _ h2)

/-- C8: skill coverage is monotone in the candidate's canonical skill
set — with nonnegative template weights (an invariant of §3), adding any
skill (in particular a previously-missing critical template keyword) to
the canonical set never decreases `skill_match_score`. -/
theorem coverage_monotone (t : JobTemplate) (syns : List SynonymRule)
    (canon : List String) (kw : String)
    (hw : ∀ k ∈ t.skills, 0 ≤ k.weight) :
    skillCoverage t canon syns ≤ skillCoverage t (kw :: canon) syns := by
  unfold skillCoverage
  by_cases htw : totalWeight t ≤ 0
  · rw [if_pos htw, if_pos htw]
  · rw [if_neg htw, if_neg htw]
    have htw' : 0 < totalWeight t := lt_of_not_le htw
    have hmw : matchedWeight t canon syns ≤ matchedWeight t (kw :: canon) syns := by
      unfold matchedWeight matchedKeywords
      refine sum_filter_map_mono _ _ _ t.skills (fun k _ hk => ?_) hw
      exact isMatchedName_mono canon kw syns k.keyword hk
    have hmc : missingCriticalWeight t (kw :: canon) syns
        ≤ missingCriticalWeight t canon syns := by
      unfold missingCriticalWeight missingKeywords
      rw [List.filter_filter, List.filter_filter]
      refine sum_filter_map_mono _ _ _ t.skills (fun k _ hk => ?_) hw
      simp only [Bool.and_eq_true, Bool.not_eq_true', isMatched] at hk ⊢
      refine ⟨hk.1, ?_⟩
      by_cases hm : isMatchedName canon syns k.keyword = true
      · have hmono := isMatchedName_mono canon kw syns k.keyword hm
        rw [hmono] at hk
        exact absurd hk.2 (by decide)
      · simpa using hm
    refine min_le_min ?_ ?_
    · exact mul_le_mul_of_nonneg_right ((div_le_div_iff_of_pos_right htw').2 hmw)
        (by norm_num)
    · unfold maxAchievable
      refine mul_le_mul_of_nonneg_right ((div_le_div_iff_of_pos_right htw').2 ?_)
        (by norm_num)
      linarith

/-- Witness for C8: on the scenario template, granting the candidate the
previously-missing critical keyword "python" does not decrease the skill
coverage. -/
theorem coverage_monotone_witness :
    skillCoverage demoTemplate [] [] ≤ skillCoverage demoTemplate ["python"] [] :=
  coverage_monotone demoTemplate [] [] "python"
    (by intro k hk; fin_cases hk <;> norm_num)

/-! ## C9 -/

/-- Counterexample to C9 as stated: `token_hash` is a nullable column, and
a MySQL unique index admits any number of NULLs — this two-row table state
satisfies `uk_is_token_hash` although the two distinct sessions have equal
(NULL) `token_hash` values. -/
theorem token_hash_null_counterexample :
    tokenHashUnique
      [⟨"s1", 1, "AI Engineer", .canceled, none, 100⟩,
       ⟨"s2", 2, "Data Engineer", .canceled, none, 100⟩] ∧
    (⟨"s1", 1, "AI Engineer", .canceled, none, 100⟩ : SessionRow)
        ≠ ⟨"s2", 2, "Data Engineer", .canceled, none, 100⟩ ∧
    SessionRow.tokenHash ⟨"s1", 1, "AI Engineer", .canceled, none, 100⟩
        = SessionRow.tokenHash ⟨"s2", 2, "Data Engineer", .canceled, none, 100⟩ := by
  refine ⟨?_, by decide, rfl⟩
  unfold tokenHashUnique
  simp

/-- C9 (amended): under `uk_is_token_hash`, any two distinct stored
sessions with non-NULL `token_hash` differ on it; since a presented token
always hashes to a concrete value, resolve-by-token matches at most one
stored session. -/
theorem token_hash_unique_resolves_at_most_one :
    ∀ (rows : List SessionRow), tokenHashUnique rows →
      ∀ hsh : String, (rowsMatchingHash rows hsh).length ≤ 1
  | [], _, _ => by simp [rowsMatchingHash]
  | r :: rows, hu, hsh => by
    obtain ⟨hr, hrest⟩ := List.pairwise_cons.1 hu
    have ih := token_hash_unique_resolves_at_most_one rows hrest hsh
    by_cases hm : r.tokenHash = some hsh
    · have hnil : rowsMatchingHash rows hsh = [] := by
        unfold rowsMatchingHash
        rw [List.filter_eq_nil_iff]
        intro b hb
        simp only [decide_eq_true_eq]
        exact hr b hb hsh hm
      unfold rowsMatchingHash at hnil ⊢
      simp [List.filter_cons, hm, hnil]
    · unfold rowsMatchingHash at ih ⊢
      simp only [List.filter_cons, hm, decide_eq_true_eq, if_false]
      simpa using ih

/-- Witness for C9's amended theorem: a store of two sessions with
distinct non-NULL hashes; resolving either hash matches at most one row. -/
theorem token_hash_unique_witness :
    (rowsMatchingHash
      [⟨"s1", 1, "AI Engineer", .invited, some "h1", 100⟩,
       ⟨"s2", 2, "Data Engineer", .invited, some "h2", 100⟩] "h1").length ≤ 1 :=
  token_hash_unique_resolves_at_most_one
    [⟨"s1", 1, "AI Engineer", .invited, some "h1", 100⟩,
     ⟨"s2", 2, "Data Engineer", .invited, some "h2", 100⟩]
    (by decide) "h1"

/-! ## C10 -/

/-- C10: under `uk_role_keyword`, the keywords of the template of any role
contain no duplicates — each keyword appears at most once, so the coverage
denominator counts each keyword exactly once — and the matched and missing
keyword lists contain no duplicate entries either. -/
theorem role_keyword_unique_nodup (rows : List JdKeywordRow) (rid : Nat)
    (canon : List String) (syns : List SynonymRule) (t : JobTemplate)
    (hu : roleKeywordUnique rows)
    (ht : t.skills = keywordsOfRole rows rid) :
    (t.skills.map (·.keyword)).Nodup ∧
    (∀ kw, (t.skills.map (·.keyword)).count kw ≤ 1) ∧
    (matchedNames t canon syns).Nodup ∧
    (missingNames t canon syns).Nodup := by
  have hnames : (t.skills.map (·.keyword)).Nodup := by
    rw [ht]
    unfold keywordsOfRole
    rw [List.map_map]
    have hpw : (rows.filter (fun r => decide (r.roleId = rid))).Pairwise
        (fun a b => ¬(a.roleId = b.roleId ∧ a.keyword = b.keyword)) :=
      hu.sublist (List.filter_sublist rows)
    have hpw2 : (rows.filter (fun r => decide (r.roleId = rid))).Pairwise
        (fun a b => a.keyword ≠ b.keyword) := by
      refine List.Pairwise.imp_of_mem ?_ hpw
      intro a b ha hb hnot hkw
      have ha' : a.roleId = rid := by
        simpa using (List.mem_filter.1 ha).2
      have hb' : b.roleId = rid := by
        simpa using (List.mem_filter.1 hb).2
      exact hnot ⟨ha'.trans hb'.symm, hkw⟩
    exact List.Pairwise.map _ (fun _ _ h => h) hpw2
  refine ⟨hnames, fun kw => List.nodup_iff_count_le_one.1 hnames kw, ?_, ?_⟩
  · exact List.Nodup.sublist
      (List.Sublist.map _ (List.filter_sublist _)) hnames
  · exact List.Nodup.sublist
      (List.Sublist.map _ (List.filter_sublist _)) hnames

/-- The `jd_keywords` rows of two roles sharing the keyword "python",
satisfying `uk_role_keyword`. -/
def demoKeywordRows : List JdKeywordRow :=
  [⟨1, "python", .critical, 3⟩, ⟨1, "docker", .preferred, 1⟩,
   ⟨2, "python", .critical, 2⟩]

/-- Witness for C10: the template of role 1 has duplicate-free keywords
and a duplicate-free matched list. -/
theorem role_keyword_unique_witness :
    ((JobTemplate.mk (keywordsOfRole demoKeywordRows 1) [] 0 false
        false).skills.map (·.keyword)).Nodup ∧
    (matchedNames
      (JobTemplate.mk (keywordsOfRole demoKeywordRows 1) [] 0 false false)
      ["python"] []).Nodup :=
  have h := role_keyword_unique_nodup demoKeywordRows 1 ["python"] []
    (JobTemplate.mk (keywordsOfRole demoKeywordRows 1) [] 0 false false)
    (by decide) rfl
  ⟨h.1, h.2.2.1⟩

end SourceHive
